import Mathlib

/-!
Verification development for the renet/rechannel networking core.

The Rust sources embedded here are:
* `rechannel/src/network_info.rs` — bandwidth metrics (`PacketInfo`,
  `BandwidthInfo`, `kilobits_per_second`, `update_metrics`);
* `renet/src/lib.rs` — `RenetConnectionConfig` and its defaults;
* `renet/src/server.rs` — `RenetServer` orchestration (`update`,
  `send_packets`, `handle_server_result`, the event queue).

Floating point (`f32`/`f64`) is modelled by exact rationals `ℚ`;
`std::time::Duration` is modelled by a nonnegative rational number of
seconds. Components of the repository that are not present in the source
tree (the `CircularBuffer` ring, the rechannel channel implementations,
the renetcode session layer) are modelled from the specification and are
marked `Modelled from the spec:` in their doc comments.
-/

namespace Renet

/-- Model of `std::time::Duration::MAX` (`u64::MAX = 2^64 - 1` seconds
plus `999_999_999` nanoseconds), as a rational number of seconds. -/
def durationMax : ℚ := 18446744073709551615 + 999999999 / 1000000000

/-- Model of `f32::EPSILON`, which is `2^(-23) = 1 / 8388608`. -/
def f32Epsilon : ℚ := 1 / 8388608

/-- `PacketInfo` from `network_info.rs`: a `(timestamp, size)` sample.
`time` is in seconds, `size` in bytes. -/
structure PacketInfo where
  time : ℚ
  size : ℕ
  deriving Repr, DecidableEq

/-- `PacketInfo::new`. -/
def PacketInfo.new (time : ℚ) (size : ℕ) : PacketInfo := ⟨time, size⟩

/-- `PacketInfo::default()`: zero time, zero size. -/
def PacketInfo.default : PacketInfo := ⟨0, 0⟩

/-- `CIRCULAR_BUFFER_SIZE` from `network_info.rs`. -/
def CIRCULAR_BUFFER_SIZE : ℕ := 60

/-- Modelled from the spec: the `rechannel` `CircularBuffer` type is not in
the source tree; the spec describes it as a fixed-capacity (60) ring of
samples. `queue` always holds exactly `CIRCULAR_BUFFER_SIZE` entries
(initially default entries, i.e. zero-size samples) and `cursor` is the
next write position. -/
structure CircularBuffer where
  queue : List PacketInfo
  cursor : ℕ
  deriving Repr, DecidableEq

/-- Modelled from the spec: a fresh ring holds 60 default (zero-size)
samples. -/
def CircularBuffer.new : CircularBuffer :=
  ⟨List.replicate CIRCULAR_BUFFER_SIZE PacketInfo.default, 0⟩

/-- Modelled from the spec: pushing into the ring overwrites the oldest
slot and advances the cursor modulo the capacity. -/
def CircularBuffer.push (b : CircularBuffer) (x : PacketInfo) : CircularBuffer :=
  ⟨b.queue.set b.cursor x, (b.cursor + 1) % CIRCULAR_BUFFER_SIZE⟩

/-- One step of the accumulation loop in
`CircularBuffer::kilobits_per_second`: zero-size entries are skipped,
otherwise the running minimum start time, maximum end time and byte count
are updated. State is `(start, end, bytes_sent)`. -/
def kbpsStep (acc : ℚ × ℚ × ℕ) (p : PacketInfo) : ℚ × ℚ × ℕ :=
  if p.size = 0 then acc
  else (min acc.1 p.time, max acc.2.1 p.time, acc.2.2 + p.size)

/-- `CircularBuffer::kilobits_per_second` from `network_info.rs`:
fold over the ring with `start = Duration::MAX`, `end = Duration::ZERO`,
`bytes_sent = 0`; return `0` when `start >= end`, otherwise
`bytes_sent * 8` divided by the span in milliseconds. -/
def CircularBuffer.kilobits_per_second (b : CircularBuffer) : ℚ :=
  let acc := b.queue.foldl kbpsStep (durationMax, 0, 0)
  if acc.2.1 ≤ acc.1 then 0
  else (acc.2.2 * 8 : ℚ) / ((acc.2.1 - acc.1) * 1000)

/-- `BandwidthInfo` from `network_info.rs`. -/
structure BandwidthInfo where
  packets_sent : CircularBuffer
  packets_received : CircularBuffer
  bandwidth_smoothing_factor : ℚ
  sent_kbps : ℚ
  received_kbps : ℚ
  deriving Repr, DecidableEq

/-- `BandwidthInfo::new`. -/
def BandwidthInfo.new (bandwidth_smoothing_factor : ℚ) : BandwidthInfo :=
  ⟨CircularBuffer.new, CircularBuffer.new, bandwidth_smoothing_factor, 0, 0⟩

/-- `BandwidthInfo::sent_packet`. -/
def BandwidthInfo.sent_packet (b : BandwidthInfo) (time : ℚ) (size : ℕ) :
    BandwidthInfo :=
  { b with packets_sent := b.packets_sent.push (PacketInfo.new time size) }

/-- `BandwidthInfo::received_packet`. -/
def BandwidthInfo.received_packet (b : BandwidthInfo) (time : ℚ) (size : ℕ) :
    BandwidthInfo :=
  { b with packets_received := b.packets_received.push (PacketInfo.new time size) }

/-- The smoothing step applied to one observable in
`BandwidthInfo::update_metrics`: when the current smoothed value is `0`
or below `f32::EPSILON` the instantaneous value is taken directly,
otherwise the EWMA update is applied. -/
def smoothe (smoothed instant factor : ℚ) : ℚ :=
  if smoothed = 0 ∨ smoothed < f32Epsilon then instant
  else smoothed + (instant - smoothed) * factor

/-- `BandwidthInfo::update_metrics` from `network_info.rs`. -/
def BandwidthInfo.update_metrics (b : BandwidthInfo) : BandwidthInfo :=
  { b with
    sent_kbps := smoothe b.sent_kbps b.packets_sent.kilobits_per_second
      b.bandwidth_smoothing_factor
    received_kbps := smoothe b.received_kbps b.packets_received.kilobits_per_second
      b.bandwidth_smoothing_factor }

/-- The timestamps of the non-zero-size samples of a ring, in ring order. -/
def nzTimes (l : List PacketInfo) : List ℚ :=
  (l.filter (fun p => p.size ≠ 0)).map (fun p => p.time)

/-- The total byte count of the non-zero-size samples of a ring. -/
def nzBytes (l : List PacketInfo) : ℕ :=
  ((l.filter (fun p => p.size ≠ 0)).map (fun p => p.size)).sum

/-- The throughput formula as the spec states it: `8 · Σ size` over the
span in milliseconds between the latest and earliest non-zero-size
samples, `0` when there is no positive span. -/
def specKilobitsPerSecond (l : List PacketInfo) : ℚ :=
  match nzTimes l with
  | [] => 0
  | t :: ts =>
    let mx := ts.foldl max t
    let mn := ts.foldl min t
    if mx ≤ mn then 0 else (nzBytes l * 8 : ℚ) / ((mx - mn) * 1000)

/-- Modelled from the spec: the reliable channel receiver (the rechannel
channel implementations are not in the source tree). It keeps
`next_expected_id` and a windowed mapping from message-id to payload;
messages with id below the cursor are dropped. -/
structure ReliableReceiver (Msg : Type) where
  nextExpectedId : ℕ
  pending : ℕ → Option Msg

/-- Modelled from the spec: a fresh receiver expects message id 0 and
buffers nothing. -/
def ReliableReceiver.init {Msg : Type} : ReliableReceiver Msg :=
  ⟨0, fun _ => none⟩

/-- Modelled from the spec: processing an arriving `(id, msg)` pair drops
ids below `next_expected_id` and otherwise stores the payload in the
mapping (duplicates overwrite with the same payload). -/
def ReliableReceiver.processMessage {Msg : Type} (r : ReliableReceiver Msg)
    (id : ℕ) (msg : Msg) : ReliableReceiver Msg :=
  if id < r.nextExpectedId then r
  else ⟨r.nextExpectedId, fun j => if j = id then some msg else r.pending j⟩

/-- Modelled from the spec: `receive_message` returns the message with id
`next_expected_id` when buffered, advancing the cursor; a gap blocks
delivery until filled. -/
def ReliableReceiver.receiveMessage {Msg : Type} (r : ReliableReceiver Msg) :
    Option Msg × ReliableReceiver Msg :=
  match r.pending r.nextExpectedId with
  | some m =>
    (some m, ⟨r.nextExpectedId + 1,
      fun j => if j = r.nextExpectedId then none else r.pending j⟩)
  | none => (none, r)

/-- A network/application event against a reliable channel endpoint:
either a packet carrying the copy of sent message `id` arrives (loss
is an id never delivered, duplication an id delivered twice, reordering
an arbitrary order of ids), or the application calls `receive_message`. -/
inductive NetEvent where
  | deliver (id : ℕ)
  | receive
  deriving Repr, DecidableEq

/-- Run a reliable receiver against the sent sequence `sent` under an
event pattern, accumulating the messages `receive_message` returned. -/
def runReliable {Msg : Type} [Inhabited Msg] (sent : List Msg) :
    List NetEvent → ReliableReceiver Msg → List Msg →
    ReliableReceiver Msg × List Msg
  | [], r, out => (r, out)
  | NetEvent.deliver id :: es, r, out =>
    runReliable sent es (r.processMessage id (sent.getD id default)) out
  | NetEvent.receive :: es, r, out =>
    match r.receiveMessage with
    | (some m, r') => runReliable sent es r' (out ++ [m])
    | (none, r') => runReliable sent es r' out

/-- `NetworkInfo` from `remote_connection.rs` as re-exported by
`network_info.rs`-adjacent code: rtt, sent/received kbps, packet loss. -/
structure NetworkInfo where
  rtt : ℚ
  sent_kbps : ℚ
  received_kbps : ℚ
  packet_loss : ℚ
  deriving Repr, DecidableEq

/-- Modelled from the spec: `DisconnectionReason` of rechannel (its
`error.rs` is not in the source tree). `server.rs` only ever inspects
whether the reason equals `DisconnectedByClient`. -/
inductive DisconnectionReason where
  | DisconnectedByClient
  | DisconnectedByServer
  | TimedOut
  deriving Repr, DecidableEq

/-- `ServerEvent` from `server.rs`: `ClientConnected(u64, user_data)` or
`ClientDisconnected(u64)`; user data is abstracted to a natural. -/
inductive ServerEvent where
  | clientConnected (client_id : ℕ) (user_data : ℕ)
  | clientDisconnected (client_id : ℕ)
  deriving Repr, DecidableEq

/-- `PacketToSend` of renetcode: an encrypted packet and the address it
is destined for. Bytes are abstracted to `List ℕ`, addresses to `ℕ`. -/
structure PacketToSend where
  packet : List ℕ
  address : ℕ
  deriving Repr, DecidableEq

/-- `ServerResult` of renetcode as matched in `handle_server_result`:
`None`, `PacketToSend`, `Payload`, `ClientConnected`,
`ClientDisconnected` (constructor names are lower-camel to avoid clashes
with the `PacketToSend` structure). -/
inductive ServerResult where
  | noAction
  | packetToSend (p : PacketToSend)
  | payload (client_id : ℕ) (payload : List ℕ)
  | clientConnected (client_id : ℕ) (user_data : ℕ) (p : PacketToSend)
  | clientDisconnected (client_id : ℕ) (p : Option PacketToSend)
  deriving Repr, DecidableEq

/-- Modelled from the spec: the per-client rechannel connection record.
`processed` logs the payloads handed to `process_packet_from`,
`received` holds the per-channel queues of delivered messages. -/
structure RechannelConn where
  processed : List (List ℕ)
  info : NetworkInfo
  received : List (ℕ × List (List ℕ))
  deriving Repr, DecidableEq

/-- Modelled from the spec: a fresh connection record. -/
def RechannelConn.init : RechannelConn := ⟨[], ⟨0, 0, 0, 0⟩, []⟩

/-- Modelled from the spec: `RechannelServer` (not in the source tree),
reduced to what `server.rs` calls on it: the connection table keyed by
client id and the queue of clients whose connection reported a fatal
disconnect reason (drained by `disconnected_client`). -/
structure RechannelServer where
  connections : List (ℕ × RechannelConn)
  pendingDisconnects : List (ℕ × DisconnectionReason)
  deriving Repr, DecidableEq

/-- `RechannelServer::is_connected`. -/
def RechannelServer.is_connected (s : RechannelServer) (c : ℕ) : Bool :=
  (s.connections.lookup c).isSome

/-- `RechannelServer::add_connection`: creates a fresh record for `c`. -/
def RechannelServer.add_connection (s : RechannelServer) (c : ℕ) : RechannelServer :=
  { s with connections := s.connections ++ [(c, RechannelConn.init)] }

/-- `RechannelServer::remove_connection`. -/
def RechannelServer.remove_connection (s : RechannelServer) (c : ℕ) : RechannelServer :=
  { s with connections := s.connections.filter (fun p => p.1 ≠ c) }

/-- Modelled from the spec: `process_packet_from` hands the payload to
client `c`'s connection record and reports the decoding outcome (given
by an oracle) as a `Result`. -/
def RechannelServer.process_packet_from (s : RechannelServer) (payload : List ℕ)
    (c : ℕ) (ok : Bool) : Except Unit RechannelServer × RechannelServer :=
  let s' : RechannelServer :=
    { s with connections := s.connections.map (fun p =>
        if p.1 = c then (p.1, { p.2 with processed := p.2.processed ++ [payload] })
        else p) }
  (if ok then .ok s' else .error (), s')

/-- `RechannelServer::network_info`: `None` for an untracked client. -/
def RechannelServer.network_info (s : RechannelServer) (c : ℕ) : Option NetworkInfo :=
  (s.connections.lookup c).map (fun conn => conn.info)

/-- Modelled from the spec: `RechannelServer::receive_message` dequeues
the next delivered message of the channel, `None` for an untracked
client or an empty queue. -/
def RechannelServer.receive_message (s : RechannelServer) (c : ℕ) (ch : ℕ) :
    Option (List ℕ) × RechannelServer :=
  match s.connections.lookup c with
  | none => (none, s)
  | some conn =>
    match conn.received.lookup ch with
    | none => (none, s)
    | some [] => (none, s)
    | some (m :: rest) =>
      (some m, { s with connections := s.connections.map (fun p =>
        if p.1 = c then (p.1, { p.2 with received := p.2.received.map (fun q =>
          if q.1 = ch then (q.1, rest) else q) })
        else p) })

/-- The ids of the tracked rechannel connections
(`RechannelServer::connections_id`). -/
def RechannelServer.connections_id (s : RechannelServer) : List ℕ :=
  s.connections.map (fun p => p.1)

/-- The outbound in-memory mpsc queue: `send` succeeds and logs the
`(address, packet)` pair while the receiving side is alive, and fails
once it is disconnected. -/
structure MpscSender where
  connected : Bool
  sentLog : List (ℕ × List ℕ)
  deriving Repr, DecidableEq

/-- `Sender::send`, returning the grown log on success. -/
def MpscSender.send (s : MpscSender) (addr : ℕ) (packet : List ℕ) :
    Except Unit MpscSender :=
  if s.connected then .ok { s with sentLog := s.sentLog ++ [(addr, packet)] }
  else .error ()

/-- Modelled from the spec: `RenetError` (its `error.rs` is not in the
source tree); `server.rs` constructs exactly `SenderDisconnected` and
`ReceiverDisconnected`. -/
inductive RenetError where
  | SenderDisconnected
  | ReceiverDisconnected
  deriving Repr, DecidableEq

/-- `NUM_DISCONNECT_PACKETS_TO_SEND` from `lib.rs`. -/
def NUM_DISCONNECT_PACKETS_TO_SEND : ℕ := 5

/-- The `for _ in 0..n { send().map_err(SenderDisconnected)? }` loop of
`server.rs`. -/
def sendTimes (n : ℕ) (s : MpscSender) (addr : ℕ) (packet : List ℕ) :
    Except RenetError MpscSender :=
  match n with
  | 0 => .ok s
  | n + 1 =>
    match s.send addr packet with
    | .ok s' => sendTimes n s' addr packet
    | .error _ => .error .SenderDisconnected

/-- The oracle modelling the components `server.rs` calls into that are
not in the source tree: renetcode's packet processing and per-client
update results, rechannel's disconnect-packet serialization, payload
encryption, payload-processing outcome and outgoing packet lists. -/
structure NetcodeOracle where
  processPacket : ℕ → List ℕ → ServerResult
  clientsId : List ℕ
  updateClient : ℕ → ServerResult
  serializeDisconnect : DisconnectionReason → Option (List ℕ)
  encryptPayload : ℕ → List ℕ → Option PacketToSend
  processOk : ℕ → List ℕ → Bool
  getPackets : ℕ → Option (List (List ℕ))

/-- The mutable state threaded through `handle_server_result`: the
outbound queue, the rechannel server and the event queue. -/
structure ServerCore where
  sender : MpscSender
  reliable : RechannelServer
  events : List ServerEvent
  deriving Repr, DecidableEq

/-- `handle_server_result` from `server.rs`. -/
def handleServerResult (o : NetcodeOracle) (res : ServerResult)
    (core : ServerCore) : Except RenetError ServerCore :=
  match res with
  | .noAction => .ok core
  | .packetToSend p =>
    match core.sender.send p.address p.packet with
    | .ok s => .ok { core with sender := s }
    | .error _ => .error .SenderDisconnected
  | .payload c payload =>
    let rel := if core.reliable.is_connected c then core.reliable
      else core.reliable.add_connection c
    match rel.process_packet_from payload c (o.processOk c payload) with
    | (.ok rel', _) => .ok { core with reliable := rel' }
    -- `if let Err(e) = ... { error!(...) }`: the error is logged, swallowed
    | (.error _, rel') => .ok { core with reliable := rel' }
  | .clientConnected c u p =>
    let rel := core.reliable.add_connection c
    let evs := core.events ++ [ServerEvent.clientConnected c u]
    match core.sender.send p.address p.packet with
    | .ok s => .ok { sender := s, reliable := rel, events := evs }
    | .error _ => .error .SenderDisconnected
  | .clientDisconnected c pOpt =>
    let evs := core.events ++ [ServerEvent.clientDisconnected c]
    let rel := core.reliable.remove_connection c
    match pOpt with
    | none => .ok { core with reliable := rel, events := evs }
    | some p =>
      match sendTimes NUM_DISCONNECT_PACKETS_TO_SEND core.sender p.address p.packet with
      | .ok s => .ok { sender := s, reliable := rel, events := evs }
      | .error e => .error e

/-- The `RenetServer` state: the rechannel server, the event queue, the
inbound queue (already-queued packets plus whether the sending side hung
up) and the outbound queue. The netcode server is the oracle. -/
structure RenetServer where
  reliable_server : RechannelServer
  events : List ServerEvent
  receiverQueue : List (ℕ × List ℕ)
  receiverDisconnected : Bool
  sender : MpscSender
  deriving Repr, DecidableEq

/-- The `ServerCore` view of a `RenetServer`. -/
def RenetServer.core (s : RenetServer) : ServerCore :=
  ⟨s.sender, s.reliable_server, s.events⟩

/-- The `loop { try_recv }` at the top of `RenetServer::update`: drain
the inbound queue through `process_packet`/`handle_server_result`, then
break on `Empty` or fail with `ReceiverDisconnected` on `Disconnected`. -/
def recvLoop (o : NetcodeOracle) :
    List (ℕ × List ℕ) → Bool → ServerCore → Except RenetError ServerCore
  | [], disc, core =>
    if disc then .error .ReceiverDisconnected else .ok core
  | (addr, payload) :: rest, disc, core =>
    match handleServerResult o (o.processPacket addr payload) core with
    | .ok core' => recvLoop o rest disc core'
    | .error e => .error e

/-- The `for client_id in clients_id { update_client }` loop of
`RenetServer::update`. -/
def clientLoop (o : NetcodeOracle) :
    List ℕ → ServerCore → Except RenetError ServerCore
  | [], core => .ok core
  | c :: rest, core =>
    match handleServerResult o (o.updateClient c) core with
    | .ok core' => clientLoop o rest core'
    | .error e => .error e

/-- The `while let Some((client_id, reason)) = disconnected_client()`
loop of `RenetServer::update`: push the `ClientDisconnected` event, and
except for `DisconnectedByClient` serialize and encrypt a disconnect
packet (failures logged and swallowed) and send it five times. -/
def discLoop (o : NetcodeOracle) :
    List (ℕ × DisconnectionReason) → ServerCore → Except RenetError ServerCore
  | [], core => .ok core
  | (c, reason) :: rest, core =>
    let core' : ServerCore :=
      { core with events := core.events ++ [ServerEvent.clientDisconnected c] }
    if reason = DisconnectionReason.DisconnectedByClient then discLoop o rest core'
    else
      match o.serializeDisconnect reason with
      | none => discLoop o rest core'
      | some packet =>
        match o.encryptPayload c packet with
        | none => discLoop o rest core'
        | some pts =>
          match sendTimes NUM_DISCONNECT_PACKETS_TO_SEND core'.sender
              pts.address pts.packet with
          | .ok s => discLoop o rest { core' with sender := s }
          | .error e => .error e

/-- `RenetServer::update` from `server.rs`: drain the inbound queue,
run the per-client netcode updates, then handle the clients rechannel
reported as disconnected. -/
def RenetServer.update (o : NetcodeOracle) (s : RenetServer) :
    Except RenetError RenetServer :=
  match recvLoop o s.receiverQueue s.receiverDisconnected s.core with
  | .error e => .error e
  | .ok c1 =>
    match clientLoop o o.clientsId c1 with
    | .error e => .error e
    | .ok c2 =>
      match discLoop o c2.reliable.pendingDisconnects
          ⟨c2.sender, { c2.reliable with pendingDisconnects := [] }, c2.events⟩ with
      | .error e => .error e
      | .ok c3 =>
        .ok { reliable_server := c3.reliable, events := c3.events,
              receiverQueue := [], receiverDisconnected := s.receiverDisconnected,
              sender := c3.sender }

/-- `RenetServer::get_event`: `events.pop_front()`. -/
def RenetServer.get_event (s : RenetServer) : Option ServerEvent × RenetServer :=
  match s.events with
  | [] => (none, s)
  | e :: rest => (some e, { s with events := rest })

/-- `RenetServer::network_info`: delegates to the rechannel server. -/
def RenetServer.network_info (s : RenetServer) (c : ℕ) : Option NetworkInfo :=
  s.reliable_server.network_info c

/-- `RenetServer::receive_message`: delegates to the rechannel server. -/
def RenetServer.receive_message (s : RenetServer) (c : ℕ) (ch : ℕ) :
    Option (List ℕ) × RenetServer :=
  match s.reliable_server.receive_message c ch with
  | (m, rel) => (m, { s with reliable_server := rel })

/-- The inner packet loop of `RenetServer::send_packets`: each packet is
encrypted (failure logged and swallowed) and sent, a send failure being
`SenderDisconnected`. -/
def sendPacketList (encrypt : List ℕ → Option PacketToSend) :
    List (List ℕ) → MpscSender → Except RenetError MpscSender
  | [], sender => .ok sender
  | packet :: rest, sender =>
    match encrypt packet with
    | none => sendPacketList encrypt rest sender
    | some pts =>
      match sender.send pts.address pts.packet with
      | .ok s => sendPacketList encrypt rest s
      | .error _ => .error .SenderDisconnected

/-- The outer client loop of `RenetServer::send_packets`: a failure to
get a client's packets is logged and the client skipped. -/
def packetsLoop (o : NetcodeOracle) :
    List ℕ → MpscSender → Except RenetError MpscSender
  | [], sender => .ok sender
  | c :: rest, sender =>
    match o.getPackets c with
    | none => packetsLoop o rest sender
    | some packets =>
      match sendPacketList (o.encryptPayload c) packets sender with
      | .ok s => packetsLoop o rest s
      | .error e => .error e

/-- `RenetServer::send_packets` from `server.rs`. -/
def RenetServer.send_packets (o : NetcodeOracle) (s : RenetServer) :
    Except RenetError RenetServer :=
  match packetsLoop o s.reliable_server.connections_id s.sender with
  | .ok sender => .ok { s with sender := sender }
  | .error e => .error e

/-- A channel variant tag of `channels_config` (the per-variant option
records of rechannel are not in the source tree; only the variant and
its defaulted options appear in `lib.rs`). -/
inductive ChannelKind where
  | Reliable
  | Unreliable
  | Block
  deriving Repr, DecidableEq

/-- Modelled from the spec: `NETCODE_MAX_PAYLOAD_BYTES`, renetcode's
maximum payload size, ≈ 1200 bytes per the spec. -/
def NETCODE_MAX_PAYLOAD_BYTES : ℕ := 1200

/-- `RenetConnectionConfig` from `lib.rs`. `heartbeat_time` is in
seconds, `measure_smoothing_factor` an exact rational. -/
structure RenetConnectionConfig where
  max_packet_size : ℕ
  sent_packets_buffer_size : ℕ
  received_packets_buffer_size : ℕ
  reassembly_buffer_size : ℕ
  measure_smoothing_factor : ℚ
  heartbeat_time : ℚ
  channels_config : List ChannelKind
  deriving Repr, DecidableEq

/-- `Default for RenetConnectionConfig` from `lib.rs`. -/
def RenetConnectionConfig.default : RenetConnectionConfig :=
  { max_packet_size := 16 * 1024
    sent_packets_buffer_size := 256
    received_packets_buffer_size := 256
    reassembly_buffer_size := 256
    measure_smoothing_factor := 1 / 10
    heartbeat_time := 100 / 1000
    channels_config := [ChannelKind.Reliable, ChannelKind.Unreliable, ChannelKind.Block] }

/-- `FragmentConfig` of rechannel as constructed in `lib.rs`. -/
structure FragmentConfig where
  fragment_above : ℕ
  fragment_size : ℕ
  reassembly_buffer_size : ℕ
  deriving Repr, DecidableEq

/-- `ConnectionConfig` of rechannel as constructed in `lib.rs`. -/
structure ConnectionConfig where
  max_packet_size : ℕ
  sent_packets_buffer_size : ℕ
  received_packets_buffer_size : ℕ
  measure_smoothing_factor : ℚ
  heartbeat_time : ℚ
  channels_config : List ChannelKind
  fragment_config : FragmentConfig
  deriving Repr, DecidableEq

/-- `RenetConnectionConfig::to_connection_config` from `lib.rs`. -/
def RenetConnectionConfig.to_connection_config (c : RenetConnectionConfig) :
    ConnectionConfig :=
  { max_packet_size := c.max_packet_size
    sent_packets_buffer_size := c.sent_packets_buffer_size
    received_packets_buffer_size := c.received_packets_buffer_size
    measure_smoothing_factor := c.measure_smoothing_factor
    heartbeat_time := c.heartbeat_time
    channels_config := c.channels_config
    fragment_config :=
      { fragment_above := NETCODE_MAX_PAYLOAD_BYTES - 40
        fragment_size := NETCODE_MAX_PAYLOAD_BYTES - 40
        reassembly_buffer_size := c.reassembly_buffer_size } }

/-- A netcode session slot state. Modelled from the spec: sessions are
created `Pending`, transition to `Connected` after the handshake and
terminate in `Disconnected`. -/
inductive SessionState where
  | pending
  | connected
  | disconnected
  deriving Repr, DecidableEq

/-- The server event system: per-client session states (the netcode side,
modelled from the spec lifecycle), the full history of pushed events,
the current `VecDeque` and the events already drained by `get_event`. -/
structure EventSys where
  sessions : ℕ → SessionState
  pushed : List ServerEvent
  queue : List ServerEvent
  drained : List ServerEvent

/-- A step of the event system: a handshake finalizes for client `c`
(the `ServerResult::ClientConnected` arm of `handle_server_result`), the
session of `c` ends (the `ServerResult::ClientDisconnected` arm or the
rechannel disconnect loop), or the application calls `get_event`. -/
inductive SessionStep where
  | connect (c : ℕ) (u : ℕ)
  | disconnect (c : ℕ)
  | getEvent
  deriving Repr, DecidableEq

/-- The step function of the event system. Connect and disconnect follow
the spec lifecycle (`Pending → Connected → Disconnected`); the event
pushes mirror `events.push_back` in `handle_server_result` and
`RenetServer::update`, and `getEvent` mirrors `events.pop_front()`. -/
def stepEventSys (s : EventSys) : SessionStep → EventSys
  | SessionStep.connect c u =>
    if s.sessions c = SessionState.pending then
      { sessions := fun j => if j = c then SessionState.connected else s.sessions j
        pushed := s.pushed ++ [ServerEvent.clientConnected c u]
        queue := s.queue ++ [ServerEvent.clientConnected c u]
        drained := s.drained }
    else s
  | SessionStep.disconnect c =>
    if s.sessions c = SessionState.connected then
      { sessions := fun j => if j = c then SessionState.disconnected else s.sessions j
        pushed := s.pushed ++ [ServerEvent.clientDisconnected c]
        queue := s.queue ++ [ServerEvent.clientDisconnected c]
        drained := s.drained }
    else s
  | SessionStep.getEvent =>
    match s.queue with
    | [] => s
    | e :: rest => { s with queue := rest, drained := s.drained ++ [e] }

/-- The initial event system: every session pending, no events. -/
def EventSys.init : EventSys := ⟨fun _ => SessionState.pending, [], [], []⟩

/-- Run the event system over a step sequence. -/
def runEventSys (steps : List SessionStep) : EventSys :=
  steps.foldl stepEventSys EventSys.init

/-- The events concerning client `c`, in order. -/
def eventsFor (c : ℕ) (l : List ServerEvent) : List ServerEvent :=
  l.filter (fun e =>
    match e with
    | ServerEvent.clientConnected i _ => i == c
    | ServerEvent.clientDisconnected i => i == c)

/-- An event is valid against a sent sequence of length `n` when every
delivered packet is a copy of a genuinely sent message. -/
def validEvent (n : ℕ) : NetEvent → Bool
  | NetEvent.deliver id => id < n
  | NetEvent.receive => true

/-- A concrete oracle used to instantiate theorems on concrete runs:
incoming packets decode to nothing, no netcode clients, serialization
and encryption succeed, payload processing succeeds, no packets to
send. -/
def exOracle : NetcodeOracle :=
  { processPacket := fun _ _ => ServerResult.noAction
    clientsId := []
    updateClient := fun _ => ServerResult.noAction
    serializeDisconnect := fun _ => some [1]
    encryptPayload := fun c p => some ⟨p, c⟩
    processOk := fun _ _ => true
    getPackets := fun _ => some [] }

/-- A server whose rechannel layer reported client 0 disconnected with
reason `DisconnectedByClient`, with healthy transport queues. -/
def byClientServer : RenetServer :=
  ⟨⟨[], [(0, DisconnectionReason.DisconnectedByClient)]⟩, [], [], false, ⟨true, []⟩⟩

/-- A server whose rechannel layer reported client 3 disconnected with
reason `DisconnectedByServer`, with healthy transport queues. -/
def byServerServer : RenetServer :=
  ⟨⟨[], [(3, DisconnectionReason.DisconnectedByServer)]⟩, [], [], false, ⟨true, []⟩⟩

/-- A server whose inbound transport queue has hung up. -/
def brokenReceiverServer : RenetServer :=
  ⟨⟨[], []⟩, [], [], true, ⟨true, []⟩⟩

/-- An empty server core with a healthy outbound queue. -/
def emptyCore : ServerCore := ⟨⟨true, []⟩, ⟨[], []⟩, []⟩

/-- Accumulation of `kilobits_per_second` over any initial accumulator:
the fold computes the minimum and maximum non-zero-sample time against
the initial bounds and the total non-zero-sample byte count. -/
theorem foldl_kbpsStep (l : List PacketInfo) : ∀ (s e : ℚ) (n : ℕ),
    l.foldl kbpsStep (s, e, n) =
      ((nzTimes l).foldl min s, (nzTimes l).foldl max e, n + nzBytes l) := by
  induction l with
  | nil => intro s e n; simp [nzTimes, nzBytes]
  | cons p l ih =>
    intro s e n
    by_cases hp : p.size = 0
    · simp [kbpsStep, hp, nzTimes, nzBytes, List.filter_cons, ih]
    · simp [kbpsStep, hp, nzTimes, nzBytes, List.filter_cons, ih, Nat.add_assoc]

/-- Folding `min` commutes with a second initial bound. -/
theorem foldl_min_init (l : List ℚ) : ∀ a b : ℚ,
    l.foldl min (min a b) = min a (l.foldl min b) := by
  induction l with
  | nil => intro a b; rfl
  | cons c l ih =>
    intro a b
    simp only [List.foldl_cons]
    rw [min_assoc, ih]

/-- Folding `max` commutes with a second initial bound. -/
theorem foldl_max_init (l : List ℚ) : ∀ a b : ℚ,
    l.foldl max (max a b) = max a (l.foldl max b) := by
  induction l with
  | nil => intro a b; rfl
  | cons c l ih =>
    intro a b
    simp only [List.foldl_cons]
    rw [max_assoc, ih]

/-- A `min`-fold lies below its initial bound. -/
theorem foldl_min_le (l : List ℚ) : ∀ b : ℚ, l.foldl min b ≤ b := by
  induction l with
  | nil => intro b; exact le_refl b
  | cons c l ih =>
    intro b
    simp only [List.foldl_cons]
    exact le_trans (ih (min b c)) (min_le_left b c)

/-- A `max`-fold lies above its initial bound. -/
theorem le_foldl_max (l : List ℚ) : ∀ b : ℚ, b ≤ l.foldl max b := by
  induction l with
  | nil => intro b; exact le_refl b
  | cons c l ih =>
    intro b
    simp only [List.foldl_cons]
    exact le_trans (le_max_left b c) (ih (max b c))

/-- Every non-zero-sample time of a ring inherits the bounds of the
sample times. -/
theorem nzTimes_bounds (l : List PacketInfo)
    (ht : ∀ p ∈ l, 0 ≤ p.time ∧ p.time ≤ durationMax) :
    ∀ x ∈ nzTimes l, 0 ≤ x ∧ x ≤ durationMax := by
  intro x hx
  unfold nzTimes at hx
  obtain ⟨p, hp, rfl⟩ := List.mem_map.mp hx
  exact ht p (List.mem_filter.mp hp).1

/-- `kilobits_per_second` computes the spec's throughput formula, for
sample times in the representable `Duration` range. -/
theorem kilobits_eq_spec (b : CircularBuffer)
    (ht : ∀ p ∈ b.queue, 0 ≤ p.time ∧ p.time ≤ durationMax) :
    b.kilobits_per_second = specKilobitsPerSecond b.queue := by
  unfold CircularBuffer.kilobits_per_second specKilobitsPerSecond
  rw [foldl_kbpsStep]
  cases hnz : nzTimes b.queue with
  | nil =>
    have h0 : (0 : ℚ) ≤ durationMax := by norm_num [durationMax]
    simp [hnz, h0]
  | cons t ts =>
    have hmem := nzTimes_bounds b.queue ht
    rw [hnz] at hmem
    have htb := hmem t (List.mem_cons_self t ts)
    have hminfold : ts.foldl min t ≤ durationMax :=
      le_trans (foldl_min_le ts t) htb.2
    have hmaxfold : (0 : ℚ) ≤ ts.foldl max t :=
      le_trans htb.1 (le_foldl_max ts t)
    have hmin : (t :: ts).foldl min durationMax = ts.foldl min t := by
      simp only [List.foldl_cons]
      rw [foldl_min_init]
      exact min_eq_right hminfold
    have hmax : (t :: ts).foldl max 0 = ts.foldl max t := by
      simp only [List.foldl_cons]
      rw [foldl_max_init]
      exact max_eq_right hmaxfold
    simp only [hnz, hmin, hmax, Nat.zero_add]

/-- C4: for every state of `BandwidthInfo`, `update_metrics` sets the
smoothed observable directly to the instantaneous kilobits-per-second
value whenever the current smoothed value is zero or below
`f32::EPSILON`, and otherwise applies
`smoothed := smoothed + (instant − smoothed) · α`; the first-sample
initialization re-triggers whenever the smoothed value drifts below
machine epsilon. -/
theorem c4_update_metrics_branches (b : BandwidthInfo) :
    ((b.sent_kbps = 0 ∨ b.sent_kbps < f32Epsilon) →
      b.update_metrics.sent_kbps = b.packets_sent.kilobits_per_second) ∧
    (¬(b.sent_kbps = 0 ∨ b.sent_kbps < f32Epsilon) →
      b.update_metrics.sent_kbps = b.sent_kbps +
        (b.packets_sent.kilobits_per_second - b.sent_kbps) *
          b.bandwidth_smoothing_factor) ∧
    ((b.received_kbps = 0 ∨ b.received_kbps < f32Epsilon) →
      b.update_metrics.received_kbps = b.packets_received.kilobits_per_second) ∧
    (¬(b.received_kbps = 0 ∨ b.received_kbps < f32Epsilon) →
      b.update_metrics.received_kbps = b.received_kbps +
        (b.packets_received.kilobits_per_second - b.received_kbps) *
          b.bandwidth_smoothing_factor) := by
  refine ⟨fun h => ?_, fun h => ?_, fun h => ?_, fun h => ?_⟩ <;>
    simp [BandwidthInfo.update_metrics, smoothe, h]

/-- C4 witness: on a fresh `BandwidthInfo` the smoothed value is zero, so
the first call takes the instantaneous value directly. -/
theorem c4_update_metrics_branches_witness :
    ((BandwidthInfo.new 0).sent_kbps = 0 ∨
      (BandwidthInfo.new 0).sent_kbps < f32Epsilon) ∧
    (BandwidthInfo.new 0).update_metrics.sent_kbps =
      (BandwidthInfo.new 0).packets_sent.kilobits_per_second :=
  ⟨Or.inl rfl, (c4_update_metrics_branches (BandwidthInfo.new 0)).1 (Or.inl rfl)⟩

/-- C5: for every 60-sample ring with sample times in the `Duration`
range, `kilobits_per_second` returns `8 · Σ size` of the non-zero-size
samples over the millisecond span between their latest and earliest
timestamps, ignoring zero-size entries and returning `0` on a zero
span. -/
theorem c5_kilobits_per_second_spec (b : CircularBuffer)
    (_hlen : b.queue.length ≤ CIRCULAR_BUFFER_SIZE)
    (ht : ∀ p ∈ b.queue, 0 ≤ p.time ∧ p.time ≤ durationMax) :
    b.kilobits_per_second = specKilobitsPerSecond b.queue :=
  kilobits_eq_spec b ht

/-- C5 witness: a ring holding two 125-byte samples one second apart
measures 2 kbps under both the code and the spec formula. -/
theorem c5_kilobits_per_second_spec_witness :
    ((CircularBuffer.new.push (PacketInfo.new 0 125)).push
      (PacketInfo.new 1 125)).queue.length ≤ CIRCULAR_BUFFER_SIZE ∧
    (∀ p ∈ ((CircularBuffer.new.push (PacketInfo.new 0 125)).push
      (PacketInfo.new 1 125)).queue, 0 ≤ p.time ∧ p.time ≤ durationMax) ∧
    ((CircularBuffer.new.push (PacketInfo.new 0 125)).push
      (PacketInfo.new 1 125)).kilobits_per_second =
      specKilobitsPerSecond ((CircularBuffer.new.push (PacketInfo.new 0 125)).push
        (PacketInfo.new 1 125)).queue := by
  have hlen : ((CircularBuffer.new.push (PacketInfo.new 0 125)).push
      (PacketInfo.new 1 125)).queue.length ≤ CIRCULAR_BUFFER_SIZE := by
    norm_num [CircularBuffer.new, CircularBuffer.push, CIRCULAR_BUFFER_SIZE]
  have ht : ∀ p ∈ ((CircularBuffer.new.push (PacketInfo.new 0 125)).push
      (PacketInfo.new 1 125)).queue, 0 ≤ p.time ∧ p.time ≤ durationMax := by
    intro p hp
    simp only [CircularBuffer.push] at hp
    rcases List.mem_or_eq_of_mem_set hp with hp2 | rfl
    · rcases List.mem_or_eq_of_mem_set hp2 with hp3 | rfl
      · simp only [CircularBuffer.new] at hp3
        have := List.eq_of_mem_replicate hp3
        subst this
        norm_num [PacketInfo.default, durationMax]
      · norm_num [PacketInfo.new, durationMax]
    · norm_num [PacketInfo.new, durationMax]
  exact ⟨hlen, ht, c5_kilobits_per_second_spec _ hlen ht⟩

/-- C6 counterexample: with `α = 0`, after a first (non-zero) sample has
been recorded — here `1/12500000` kbps, which is below `f32::EPSILON` —
a subsequent `update_metrics` call still changes the smoothed value, so
the claim as stated fails on the code. -/
theorem c6_alpha_zero_counterexample :
    (((BandwidthInfo.new 0).sent_packet 0 1).sent_packet 200000 1).update_metrics.sent_kbps ≠ 0 ∧
    (((((BandwidthInfo.new 0).sent_packet 0 1).sent_packet 200000 1).update_metrics.sent_packet
        200001 125000).update_metrics.sent_kbps ≠
      (((BandwidthInfo.new 0).sent_packet 0 1).sent_packet 200000 1).update_metrics.sent_kbps) := by
  norm_num [BandwidthInfo.new, BandwidthInfo.sent_packet, BandwidthInfo.update_metrics, smoothe,
    CircularBuffer.new, CircularBuffer.push, CircularBuffer.kilobits_per_second, kbpsStep,
    PacketInfo.new, PacketInfo.default, CIRCULAR_BUFFER_SIZE, List.replicate, durationMax,
    f32Epsilon, min_def, max_def]

/-- C6 (amended): with `α = 1` every `update_metrics` call sets the
smoothed value to the instantaneous value; with `α = 0` the smoothed
value never changes once it is at least `f32::EPSILON`. -/
theorem c6_smoothing_factor_extremes (b : BandwidthInfo) :
    (b.bandwidth_smoothing_factor = 1 →
      b.update_metrics.sent_kbps = b.packets_sent.kilobits_per_second ∧
      b.update_metrics.received_kbps = b.packets_received.kilobits_per_second) ∧
    (b.bandwidth_smoothing_factor = 0 → f32Epsilon ≤ b.sent_kbps →
      b.update_metrics.sent_kbps = b.sent_kbps) ∧
    (b.bandwidth_smoothing_factor = 0 → f32Epsilon ≤ b.received_kbps →
      b.update_metrics.received_kbps = b.received_kbps) := by
  have heps : (0 : ℚ) < f32Epsilon := by norm_num [f32Epsilon]
  refine ⟨fun h1 => ⟨?_, ?_⟩, fun h0 hs => ?_, fun h0 hr => ?_⟩
  · by_cases h : b.sent_kbps = 0 ∨ b.sent_kbps < f32Epsilon <;>
      simp [BandwidthInfo.update_metrics, smoothe, h, h1]
  · by_cases h : b.received_kbps = 0 ∨ b.received_kbps < f32Epsilon <;>
      simp [BandwidthInfo.update_metrics, smoothe, h, h1]
  · have h : ¬(b.sent_kbps = 0 ∨ b.sent_kbps < f32Epsilon) := by
      push_neg
      exact ⟨fun h0' => absurd (h0' ▸ hs) (not_le.mpr heps), hs⟩
    simp [BandwidthInfo.update_metrics, smoothe, h, h0]
  · have h : ¬(b.received_kbps = 0 ∨ b.received_kbps < f32Epsilon) := by
      push_neg
      exact ⟨fun h0' => absurd (h0' ▸ hr) (not_le.mpr heps), hr⟩
    simp [BandwidthInfo.update_metrics, smoothe, h, h0]

/-- C6 witness: a fresh estimator with `α = 1` tracks the instantaneous
value, and an estimator with `α = 0` whose smoothed values are already
`1` keeps them unchanged. -/
theorem c6_smoothing_factor_extremes_witness :
    ((BandwidthInfo.new 1).bandwidth_smoothing_factor = 1 ∧
      (BandwidthInfo.new 1).update_metrics.sent_kbps =
        (BandwidthInfo.new 1).packets_sent.kilobits_per_second) ∧
    ({ BandwidthInfo.new 0 with sent_kbps := 1 }.bandwidth_smoothing_factor = 0 ∧
      f32Epsilon ≤ ({ BandwidthInfo.new 0 with sent_kbps := 1 } : BandwidthInfo).sent_kbps ∧
      ({ BandwidthInfo.new 0 with sent_kbps := 1 } : BandwidthInfo).update_metrics.sent_kbps =
        ({ BandwidthInfo.new 0 with sent_kbps := 1 } : BandwidthInfo).sent_kbps) :=
  ⟨⟨rfl, ((c6_smoothing_factor_extremes (BandwidthInfo.new 1)).1 rfl).1⟩,
    ⟨rfl, by norm_num [BandwidthInfo.new, f32Epsilon],
      (c6_smoothing_factor_extremes { BandwidthInfo.new 0 with sent_kbps := 1 }).2.1
        rfl (by norm_num [BandwidthInfo.new, f32Epsilon])⟩⟩

/-- C8: `RenetConnectionConfig::default()` returns the documented
defaults (16 KiB max packet size, 256-entry buffers, smoothing factor
0.1, 100 ms heartbeat) and `to_connection_config` sets `fragment_above`
and `fragment_size` to the maximum payload size minus 40 bytes. -/
theorem c8_default_config :
    RenetConnectionConfig.default.max_packet_size = 16 * 1024 ∧
    RenetConnectionConfig.default.sent_packets_buffer_size = 256 ∧
    RenetConnectionConfig.default.received_packets_buffer_size = 256 ∧
    RenetConnectionConfig.default.reassembly_buffer_size = 256 ∧
    RenetConnectionConfig.default.measure_smoothing_factor = 1 / 10 ∧
    RenetConnectionConfig.default.heartbeat_time = 100 / 1000 ∧
    (∀ c : RenetConnectionConfig,
      c.to_connection_config.fragment_config.fragment_above =
        NETCODE_MAX_PAYLOAD_BYTES - 40 ∧
      c.to_connection_config.fragment_config.fragment_size =
        NETCODE_MAX_PAYLOAD_BYTES - 40) ∧
    NETCODE_MAX_PAYLOAD_BYTES - 40 = 1160 :=
  ⟨rfl, rfl, rfl, rfl, rfl, rfl, fun _ => ⟨rfl, rfl⟩, rfl⟩

/-- C9: for a client id that is not tracked, `network_info` returns
`None` and `receive_message` returns `None`; neither query fails. -/
theorem c9_unknown_client_queries (s : RenetServer) (c ch : ℕ)
    (h : s.reliable_server.connections.lookup c = none) :
    s.network_info c = none ∧ (s.receive_message c ch).1 = none := by
  constructor
  · simp [RenetServer.network_info, RechannelServer.network_info, h]
  · simp [RenetServer.receive_message, RechannelServer.receive_message, h]

/-- C9 witness: on a server with no tracked connections both queries
return `None` for client 7. -/
theorem c9_unknown_client_queries_witness :
    (RenetServer.mk ⟨[], []⟩ [] [] false ⟨true, []⟩).reliable_server.connections.lookup 7 = none ∧
    (RenetServer.mk ⟨[], []⟩ [] [] false ⟨true, []⟩).network_info 7 = none ∧
    ((RenetServer.mk ⟨[], []⟩ [] [] false ⟨true, []⟩).receive_message 7 0).1 = none :=
  ⟨rfl, (c9_unknown_client_queries (RenetServer.mk ⟨[], []⟩ [] [] false ⟨true, []⟩) 7 0 rfl).1,
    (c9_unknown_client_queries (RenetServer.mk ⟨[], []⟩ [] [] false ⟨true, []⟩) 7 0 rfl).2⟩

/-- A successful `send` requires a live queue, keeps it live and appends
the packet to the log. -/
theorem send_ok {s s' : MpscSender} {a : ℕ} {p : List ℕ}
    (h : s.send a p = .ok s') :
    s.connected = true ∧ s'.connected = true ∧
      s'.sentLog = s.sentLog ++ [(a, p)] := by
  unfold MpscSender.send at h
  split at h
  · rename_i hc
    cases h
    exact ⟨hc, hc, rfl⟩
  · cases h

/-- A failed `send` means the outbound queue is disconnected. -/
theorem send_error {s : MpscSender} {a : ℕ} {p : List ℕ} {u : Unit}
    (h : s.send a p = .error u) : s.connected = false := by
  unfold MpscSender.send at h
  split at h
  · cases h
  · rename_i hc
    exact Bool.not_eq_true s.connected ▸ hc

/-- With a live outbound queue, `sendTimes` succeeds and appends `n`
copies of the packet. -/
theorem sendTimes_ok (n : ℕ) : ∀ (s : MpscSender) (a : ℕ) (p : List ℕ),
    s.connected = true →
    sendTimes n s a p = .ok ⟨true, s.sentLog ++ List.replicate n (a, p)⟩ := by
  induction n with
  | zero =>
    intro s a p hc
    obtain ⟨c, log⟩ := s
    cases hc
    simp [sendTimes]
  | succ n ih =>
    intro s a p hc
    obtain ⟨c, log⟩ := s
    cases hc
    have hsend : MpscSender.send ⟨true, log⟩ a p = .ok ⟨true, log ++ [(a, p)]⟩ := rfl
    simp only [sendTimes, hsend]
    rw [ih ⟨true, log ++ [(a, p)]⟩ a p rfl]
    simp [List.replicate_succ]

/-- A failed `sendTimes` is always `SenderDisconnected` and means the
outbound queue is disconnected. -/
theorem sendTimes_error {n : ℕ} {s : MpscSender} {a : ℕ} {p : List ℕ}
    {e : RenetError} (h : sendTimes n s a p = .error e) :
    e = RenetError.SenderDisconnected ∧ s.connected = false := by
  cases n with
  | zero => cases h
  | succ n =>
    cases hc : s.connected with
    | true => rw [sendTimes_ok (n + 1) s a p hc] at h; cases h
    | false =>
      unfold sendTimes MpscSender.send at h
      rw [hc] at h
      simp only [Bool.false_eq_true, if_false] at h
      cases h
      exact ⟨rfl, rfl⟩

/-- `sendTimes` preserves the connectivity flag on success. -/
theorem sendTimes_ok_preserves {n : ℕ} {s s' : MpscSender} {a : ℕ}
    {p : List ℕ} (h : sendTimes n s a p = .ok s') :
    s'.connected = s.connected := by
  cases hc : s.connected with
  | true =>
    rw [sendTimes_ok n s a p hc] at h
    cases h
    rfl
  | false =>
    cases n with
    | zero =>
      unfold sendTimes at h
      cases h
      exact hc
    | succ n =>
      unfold sendTimes MpscSender.send at h
      rw [hc] at h
      simp only [Bool.false_eq_true, if_false] at h
      cases h

/-- A failing `handle_server_result` is always `SenderDisconnected` and
means the outbound queue is disconnected. -/
theorem hsr_error {o : NetcodeOracle} {r : ServerResult} {core : ServerCore}
    {e : RenetError} (h : handleServerResult o r core = .error e) :
    e = RenetError.SenderDisconnected ∧ core.sender.connected = false := by
  cases r with
  | noAction => cases h
  | packetToSend p =>
    simp only [handleServerResult] at h
    split at h
    · cases h
    · rename_i u hs
      cases h
      exact ⟨rfl, send_error hs⟩
  | payload c payload =>
    simp only [handleServerResult] at h
    split at h <;> cases h
  | clientConnected c u p =>
    simp only [handleServerResult] at h
    split at h
    · cases h
    · rename_i u' hs
      cases h
      exact ⟨rfl, send_error hs⟩
  | clientDisconnected c pOpt =>
    cases pOpt with
    | none => cases h
    | some p =>
      simp only [handleServerResult] at h
      split at h
      · cases h
      · rename_i e' hs
        cases h
        exact sendTimes_error hs

/-- A successful `handle_server_result` preserves the outbound queue's
connectivity flag. -/
theorem hsr_ok_preserves {o : NetcodeOracle} {r : ServerResult}
    {core core' : ServerCore} (h : handleServerResult o r core = .ok core') :
    core'.sender.connected = core.sender.connected := by
  cases r with
  | noAction =>
    cases h
    rfl
  | packetToSend p =>
    simp only [handleServerResult] at h
    split at h
    · rename_i s hs
      cases h
      exact ((send_ok hs).2.1).trans ((send_ok hs).1).symm
    · cases h
  | payload c payload =>
    simp only [handleServerResult] at h
    split at h <;> (cases h; rfl)
  | clientConnected c u p =>
    simp only [handleServerResult] at h
    split at h
    · rename_i s hs
      cases h
      exact ((send_ok hs).2.1).trans ((send_ok hs).1).symm
    · cases h
  | clientDisconnected c pOpt =>
    cases pOpt with
    | none =>
      cases h
      rfl
    | some p =>
      simp only [handleServerResult] at h
      split at h
      · rename_i s hs
        cases h
        exact sendTimes_ok_preserves hs
      · cases h

/-- With a live outbound queue, `handle_server_result` always succeeds. -/
theorem hsr_ok_of_connected {o : NetcodeOracle} {r : ServerResult}
    {core : ServerCore} (hc : core.sender.connected = true) :
    ∃ core', handleServerResult o r core = .ok core' := by
  cases r with
  | noAction => exact ⟨core, rfl⟩
  | packetToSend p =>
    refine ⟨{ core with sender := ⟨true, core.sender.sentLog ++ [(p.address, p.packet)]⟩ }, ?_⟩
    simp only [handleServerResult, MpscSender.send, hc, if_pos]
  | payload c payload =>
    simp only [handleServerResult]
    split
    · exact ⟨_, rfl⟩
    · exact ⟨_, rfl⟩
  | clientConnected c u p =>
    refine ⟨⟨⟨true, core.sender.sentLog ++ [(p.address, p.packet)]⟩,
      core.reliable.add_connection c,
      core.events ++ [ServerEvent.clientConnected c u]⟩, ?_⟩
    simp only [handleServerResult, MpscSender.send, hc, if_pos]
  | clientDisconnected c pOpt =>
    cases pOpt with
    | none => exact ⟨_, rfl⟩
    | some p =>
      refine ⟨⟨⟨true, core.sender.sentLog ++
        List.replicate NUM_DISCONNECT_PACKETS_TO_SEND (p.address, p.packet)⟩,
        core.reliable.remove_connection c,
        core.events ++ [ServerEvent.clientDisconnected c]⟩, ?_⟩
      simp only [handleServerResult, sendTimes_ok _ _ _ _ hc]

/-- A failing receive loop either hit the hung-up inbound queue
(`ReceiverDisconnected`) or a hung-up outbound queue
(`SenderDisconnected`). -/
theorem recvLoop_error {o : NetcodeOracle} :
    ∀ {q : List (ℕ × List ℕ)} {disc : Bool} {core : ServerCore} {e : RenetError},
    recvLoop o q disc core = .error e →
    (e = RenetError.ReceiverDisconnected ∧ disc = true) ∨
      (e = RenetError.SenderDisconnected ∧ core.sender.connected = false) := by
  intro q
  induction q with
  | nil =>
    intro disc core e h
    cases disc with
    | true =>
      simp only [recvLoop, if_pos] at h
      cases h
      exact Or.inl ⟨rfl, rfl⟩
    | false => cases h
  | cons x rest ih =>
    intro disc core e h
    obtain ⟨addr, payload⟩ := x
    simp only [recvLoop] at h
    split at h
    · rename_i core1 h1
      rcases ih h with h2 | h2
      · exact Or.inl h2
      · exact Or.inr ⟨h2.1, (hsr_ok_preserves h1) ▸ h2.2⟩
    · rename_i e1 h1
      cases h
      exact Or.inr (hsr_error h1)

/-- A successful receive loop preserves the outbound connectivity flag. -/
theorem recvLoop_ok_preserves {o : NetcodeOracle} :
    ∀ {q : List (ℕ × List ℕ)} {disc : Bool} {core core' : ServerCore},
    recvLoop o q disc core = .ok core' →
    core'.sender.connected = core.sender.connected := by
  intro q
  induction q with
  | nil =>
    intro disc core core' h
    cases disc with
    | true => cases h
    | false =>
      simp only [recvLoop, Bool.false_eq_true, if_false] at h
      cases h
      rfl
  | cons x rest ih =>
    intro disc core core' h
    obtain ⟨addr, payload⟩ := x
    simp only [recvLoop] at h
    split at h
    · rename_i core1 h1
      exact (ih h).trans (hsr_ok_preserves h1)
    · cases h

/-- With a live outbound queue and a not-yet-hung-up inbound queue, the
receive loop succeeds. -/
theorem recvLoop_ok_of_connected {o : NetcodeOracle} :
    ∀ {q : List (ℕ × List ℕ)} {core : ServerCore},
    core.sender.connected = true →
    ∃ core', recvLoop o q false core = .ok core' := by
  intro q
  induction q with
  | nil =>
    intro core _
    exact ⟨core, rfl⟩
  | cons x rest ih =>
    intro core hc
    obtain ⟨addr, payload⟩ := x
    obtain ⟨core1, h1⟩ := @hsr_ok_of_connected o
      (o.processPacket addr payload) core hc
    have hc1 : core1.sender.connected = true := (hsr_ok_preserves h1).trans hc
    obtain ⟨core2, h2⟩ := ih hc1
    refine ⟨core2, ?_⟩
    simp only [recvLoop, h1, h2]

/-- With a live outbound queue, a hung-up inbound queue makes the
receive loop fail with `ReceiverDisconnected`. -/
theorem recvLoop_receiver_disconnected {o : NetcodeOracle} :
    ∀ {q : List (ℕ × List ℕ)} {core : ServerCore},
    core.sender.connected = true →
    recvLoop o q true core = .error RenetError.ReceiverDisconnected := by
  intro q
  induction q with
  | nil => intro core _; rfl
  | cons x rest ih =>
    intro core hc
    obtain ⟨addr, payload⟩ := x
    obtain ⟨core1, h1⟩ := @hsr_ok_of_connected o
      (o.processPacket addr payload) core hc
    have hc1 : core1.sender.connected = true := (hsr_ok_preserves h1).trans hc
    simp only [recvLoop, h1]
    exact ih hc1

/-- A failing per-client update loop means the outbound queue hung up. -/
theorem clientLoop_error {o : NetcodeOracle} :
    ∀ {cs : List ℕ} {core : ServerCore} {e : RenetError},
    clientLoop o cs core = .error e →
    e = RenetError.SenderDisconnected ∧ core.sender.connected = false := by
  intro cs
  induction cs with
  | nil => intro core e h; cases h
  | cons c rest ih =>
    intro core e h
    simp only [clientLoop] at h
    split at h
    · rename_i core1 h1
      exact ⟨(ih h).1, (hsr_ok_preserves h1) ▸ (ih h).2⟩
    · rename_i e1 h1
      cases h
      exact hsr_error h1

/-- A successful per-client update loop preserves the connectivity flag. -/
theorem clientLoop_ok_preserves {o : NetcodeOracle} :
    ∀ {cs : List ℕ} {core core' : ServerCore},
    clientLoop o cs core = .ok core' →
    core'.sender.connected = core.sender.connected := by
  intro cs
  induction cs with
  | nil =>
    intro core core' h
    cases h
    rfl
  | cons c rest ih =>
    intro core core' h
    simp only [clientLoop] at h
    split at h
    · rename_i core1 h1
      exact (ih h).trans (hsr_ok_preserves h1)
    · cases h

/-- With a live outbound queue, the per-client update loop succeeds. -/
theorem clientLoop_ok_of_connected {o : NetcodeOracle} :
    ∀ {cs : List ℕ} {core : ServerCore},
    core.sender.connected = true →
    ∃ core', clientLoop o cs core = .ok core' := by
  intro cs
  induction cs with
  | nil => intro core _; exact ⟨core, rfl⟩
  | cons c rest ih =>
    intro core hc
    obtain ⟨core1, h1⟩ := @hsr_ok_of_connected o (o.updateClient c) core hc
    obtain ⟨core2, h2⟩ := ih ((hsr_ok_preserves h1).trans hc)
    refine ⟨core2, ?_⟩
    simp only [clientLoop, h1, h2]

/-- A failing disconnect loop means the outbound queue hung up. -/
theorem discLoop_error {o : NetcodeOracle} :
    ∀ {pend : List (ℕ × DisconnectionReason)} {core : ServerCore} {e : RenetError},
    discLoop o pend core = .error e →
    e = RenetError.SenderDisconnected ∧ core.sender.connected = false := by
  intro pend
  induction pend with
  | nil => intro core e h; cases h
  | cons x rest ih =>
    intro core e h
    obtain ⟨c, reason⟩ := x
    simp only [discLoop] at h
    split at h
    · obtain ⟨he, hc⟩ := ih h
      exact ⟨he, hc⟩
    · split at h
      · obtain ⟨he, hc⟩ := ih h
        exact ⟨he, hc⟩
      · split at h
        · obtain ⟨he, hc⟩ := ih h
          exact ⟨he, hc⟩
        · split at h
          · rename_i s hs
            obtain ⟨he, hc⟩ := ih h
            exact ⟨he, (sendTimes_ok_preserves hs) ▸ hc⟩
          · rename_i e1 hs
            cases h
            exact sendTimes_error hs

/-- A successful disconnect loop preserves the connectivity flag. -/
theorem discLoop_ok_preserves {o : NetcodeOracle} :
    ∀ {pend : List (ℕ × DisconnectionReason)} {core core' : ServerCore},
    discLoop o pend core = .ok core' →
    core'.sender.connected = core.sender.connected := by
  intro pend
  induction pend with
  | nil =>
    intro core core' h
    cases h
    rfl
  | cons x rest ih =>
    intro core core' h
    obtain ⟨c, reason⟩ := x
    simp only [discLoop] at h
    split at h
    · exact (ih h).trans rfl
    · split at h
      · exact (ih h).trans rfl
      · split at h
        · exact (ih h).trans rfl
        · split at h
          · rename_i s hs
            exact ((ih h).trans (sendTimes_ok_preserves hs)).trans rfl
          · cases h

/-- With a live outbound queue, the disconnect loop succeeds. -/
theorem discLoop_ok_of_connected {o : NetcodeOracle} :
    ∀ {pend : List (ℕ × DisconnectionReason)} {core : ServerCore},
    core.sender.connected = true →
    ∃ core', discLoop o pend core = .ok core' := by
  intro pend
  induction pend with
  | nil => intro core _; exact ⟨core, rfl⟩
  | cons x rest ih =>
    intro core hc
    obtain ⟨c, reason⟩ := x
    simp only [discLoop]
    split
    · exact ih hc
    · split
      · exact ih hc
      · split
        · exact ih hc
        · rename_i pts _ _
          rw [sendTimes_ok _ _ _ _ hc]
          exact ih rfl

/-- A failing packet-list send means the outbound queue hung up. -/
theorem sendPacketList_error {encrypt : List ℕ → Option PacketToSend} :
    ∀ {packets : List (List ℕ)} {sender : MpscSender} {e : RenetError},
    sendPacketList encrypt packets sender = .error e →
    e = RenetError.SenderDisconnected ∧ sender.connected = false := by
  intro packets
  induction packets with
  | nil => intro sender e h; cases h
  | cons packet rest ih =>
    intro sender e h
    simp only [sendPacketList] at h
    split at h
    · exact ih h
    · split at h
      · rename_i s hs
        obtain ⟨he, hc⟩ := ih h
        rw [(send_ok hs).2.1] at hc
        cases hc
      · rename_i u hs
        cases h
        exact ⟨rfl, send_error hs⟩

/-- A successful packet-list send preserves the connectivity flag. -/
theorem sendPacketList_ok_preserves {encrypt : List ℕ → Option PacketToSend} :
    ∀ {packets : List (List ℕ)} {sender sender' : MpscSender},
    sendPacketList encrypt packets sender = .ok sender' →
    sender'.connected = sender.connected := by
  intro packets
  induction packets with
  | nil =>
    intro sender sender' h
    cases h
    rfl
  | cons packet rest ih =>
    intro sender sender' h
    simp only [sendPacketList] at h
    split at h
    · exact ih h
    · split at h
      · rename_i s hs
        exact (ih h).trans (((send_ok hs).2.1).trans ((send_ok hs).1).symm)
      · cases h

/-- With a live outbound queue, a packet-list send succeeds. -/
theorem sendPacketList_ok_of_connected {encrypt : List ℕ → Option PacketToSend} :
    ∀ {packets : List (List ℕ)} {sender : MpscSender},
    sender.connected = true →
    ∃ sender', sendPacketList encrypt packets sender = .ok sender' := by
  intro packets
  induction packets with
  | nil => intro sender _; exact ⟨sender, rfl⟩
  | cons packet rest ih =>
    intro sender hc
    simp only [sendPacketList]
    split
    · exact ih hc
    · rename_i pts _
      obtain ⟨cc, log⟩ := sender
      cases hc
      have hsend : MpscSender.send ⟨true, log⟩ pts.address pts.packet =
          .ok ⟨true, log ++ [(pts.address, pts.packet)]⟩ := rfl
      rw [hsend]
      exact ih rfl

/-- A failing `send_packets` client loop means the outbound queue hung
up. -/
theorem packetsLoop_error {o : NetcodeOracle} :
    ∀ {cs : List ℕ} {sender : MpscSender} {e : RenetError},
    packetsLoop o cs sender = .error e →
    e = RenetError.SenderDisconnected ∧ sender.connected = false := by
  intro cs
  induction cs with
  | nil => intro sender e h; cases h
  | cons c rest ih =>
    intro sender e h
    simp only [packetsLoop] at h
    split at h
    · exact ih h
    · split at h
      · rename_i s hs
        obtain ⟨he, hc⟩ := ih h
        exact ⟨he, (sendPacketList_ok_preserves hs) ▸ hc⟩
      · rename_i e1 hs
        cases h
        exact sendPacketList_error hs

/-- With a live outbound queue, the `send_packets` client loop
succeeds. -/
theorem packetsLoop_ok_of_connected {o : NetcodeOracle} :
    ∀ {cs : List ℕ} {sender : MpscSender},
    sender.connected = true →
    ∃ sender', packetsLoop o cs sender = .ok sender' := by
  intro cs
  induction cs with
  | nil => intro sender _; exact ⟨sender, rfl⟩
  | cons c rest ih =>
    intro sender hc
    simp only [packetsLoop]
    split
    · exact ih hc
    · rename_i packets _
      obtain ⟨s1, h1⟩ := @sendPacketList_ok_of_connected
        (o.encryptPayload c) packets sender hc
      rw [h1]
      exact ih ((sendPacketList_ok_preserves h1).trans hc)

/-- C7: transport-queue breakage is fatal and is the only error source:
`update` fails with `ReceiverDisconnected` exactly when the inbound
queue hung up and with `SenderDisconnected` only when the outbound
queue hung up; `send_packets` and `handle_server_result` fail only with
`SenderDisconnected` when the outbound queue hung up; with healthy
queues all of them succeed. -/
theorem c7_transport_error_propagation (o : NetcodeOracle) (s : RenetServer) :
    (∀ e, RenetServer.update o s = .error e →
      (e = RenetError.ReceiverDisconnected ∧ s.receiverDisconnected = true) ∨
      (e = RenetError.SenderDisconnected ∧ s.sender.connected = false)) ∧
    (s.sender.connected = true → s.receiverDisconnected = true →
      RenetServer.update o s = .error RenetError.ReceiverDisconnected) ∧
    (s.sender.connected = true → s.receiverDisconnected = false →
      ∃ s', RenetServer.update o s = .ok s') ∧
    (∀ e, RenetServer.send_packets o s = .error e →
      e = RenetError.SenderDisconnected ∧ s.sender.connected = false) ∧
    (s.sender.connected = true →
      ∃ s', RenetServer.send_packets o s = .ok s') ∧
    (∀ (res : ServerResult) (core : ServerCore) (e : RenetError),
      handleServerResult o res core = .error e →
      e = RenetError.SenderDisconnected ∧ core.sender.connected = false) := by
  refine ⟨?_, ?_, ?_, ?_, ?_, ?_⟩
  · intro e h
    simp only [RenetServer.update] at h
    split at h
    · rename_i e1 heq
      cases h
      exact recvLoop_error heq
    · rename_i c1 heq1
      split at h
      · rename_i e2 heq2
        cases h
        obtain ⟨he, hc⟩ := clientLoop_error heq2
        have hc1 : c1.sender.connected = false := hc
        exact Or.inr ⟨he, (recvLoop_ok_preserves heq1) ▸ hc1⟩
      · rename_i c2 heq2
        split at h
        · rename_i e3 heq3
          cases h
          obtain ⟨he, hc⟩ := discLoop_error heq3
          have hc2 : c2.sender.connected = false := hc
          have hc1 : c1.sender.connected = false :=
            (clientLoop_ok_preserves heq2) ▸ hc2
          exact Or.inr ⟨he, (recvLoop_ok_preserves heq1) ▸ hc1⟩
        · cases h
  · intro hc hd
    have hc' : (RenetServer.core s).sender.connected = true := hc
    simp only [RenetServer.update, hd, recvLoop_receiver_disconnected hc']
  · intro hc hd
    have hc' : (RenetServer.core s).sender.connected = true := hc
    obtain ⟨c1, h1⟩ := @recvLoop_ok_of_connected o s.receiverQueue s.core hc'
    have hc1 : c1.sender.connected = true := (recvLoop_ok_preserves h1).trans hc'
    obtain ⟨c2, h2⟩ := @clientLoop_ok_of_connected o o.clientsId c1 hc1
    have hc2 : c2.sender.connected = true := (clientLoop_ok_preserves h2).trans hc1
    obtain ⟨c3, h3⟩ := @discLoop_ok_of_connected o c2.reliable.pendingDisconnects
      ⟨c2.sender, { c2.reliable with pendingDisconnects := [] }, c2.events⟩ hc2
    simp only [RenetServer.update, hd, h1, h2, h3]
    exact ⟨_, rfl⟩
  · intro e h
    simp only [RenetServer.send_packets] at h
    split at h
    · cases h
    · rename_i e1 heq
      cases h
      exact packetsLoop_error heq
  · intro hc
    obtain ⟨s1, h1⟩ := @packetsLoop_ok_of_connected o
      s.reliable_server.connections_id s.sender hc
    simp only [RenetServer.send_packets, h1]
    exact ⟨_, rfl⟩
  · intro res core e h
    exact hsr_error h

/-- C7 witness: on a server whose inbound queue hung up and whose
outbound queue is healthy, `update` fails with `ReceiverDisconnected`
while `send_packets` succeeds. -/
theorem c7_transport_error_propagation_witness :
    brokenReceiverServer.sender.connected = true ∧
    brokenReceiverServer.receiverDisconnected = true ∧
    RenetServer.update exOracle brokenReceiverServer =
      .error RenetError.ReceiverDisconnected ∧
    ∃ s', RenetServer.send_packets exOracle brokenReceiverServer = .ok s' :=
  ⟨rfl, rfl,
    (c7_transport_error_propagation exOracle brokenReceiverServer).2.1 rfl rfl,
    (c7_transport_error_propagation exOracle brokenReceiverServer).2.2.2.2.1 rfl⟩

/-- C2 counterexample: a rechannel-reported disconnect with reason
`DisconnectedByClient` surfaces the `ClientDisconnected` event but
queues zero `Disconnect` packets, not five, so the claim as stated
fails on the code. -/
theorem c2_by_client_counterexample :
    RenetServer.update exOracle byClientServer =
      Except.ok ⟨⟨[], []⟩, [ServerEvent.clientDisconnected 0], [], false, ⟨true, []⟩⟩ ∧
    ([] : List (ℕ × List ℕ)).length ≠ NUM_DISCONNECT_PACKETS_TO_SEND := by
  constructor
  · rfl
  · decide

/-- C2 (amended): a per-connection fatal condition reported by the
channel layer during `update` surfaces a `ClientDisconnected` event for
that client, and queues exactly five `Disconnect` packets when the
reason is not `DisconnectedByClient` and the disconnect packet
serializes and encrypts successfully. -/
theorem c2_fatal_disconnect_five_packets (o : NetcodeOracle) (s : RenetServer)
    (c : ℕ) (r : DisconnectionReason) (pkt : List ℕ) (pts : PacketToSend)
    (hq : s.receiverQueue = []) (hd : s.receiverDisconnected = false)
    (hcl : o.clientsId = [])
    (hp : s.reliable_server.pendingDisconnects = [(c, r)])
    (hr : r ≠ DisconnectionReason.DisconnectedByClient)
    (hser : o.serializeDisconnect r = some pkt)
    (henc : o.encryptPayload c pkt = some pts)
    (hs : s.sender.connected = true) :
    ∃ s', RenetServer.update o s = .ok s' ∧
      s'.events = s.events ++ [ServerEvent.clientDisconnected c] ∧
      s'.sender.sentLog = s.sender.sentLog ++
        List.replicate NUM_DISCONNECT_PACKETS_TO_SEND (pts.address, pts.packet) := by
  have hrecv : recvLoop o s.receiverQueue s.receiverDisconnected s.core = .ok s.core := by
    rw [hq, hd]
    rfl
  have hclient : clientLoop o o.clientsId s.core = .ok s.core := by
    rw [hcl]
    rfl
  have hsend := sendTimes_ok NUM_DISCONNECT_PACKETS_TO_SEND s.sender
    pts.address pts.packet hs
  have hdisc : discLoop o (RenetServer.core s).reliable.pendingDisconnects
      ⟨(RenetServer.core s).sender,
        { (RenetServer.core s).reliable with pendingDisconnects := [] },
        (RenetServer.core s).events⟩ =
      .ok ⟨⟨true, s.sender.sentLog ++
          List.replicate NUM_DISCONNECT_PACKETS_TO_SEND (pts.address, pts.packet)⟩,
        { s.reliable_server with pendingDisconnects := [] },
        s.events ++ [ServerEvent.clientDisconnected c]⟩ := by
    show discLoop o s.reliable_server.pendingDisconnects _ = _
    rw [hp]
    simp only [discLoop, if_neg hr, hser, henc]
    show (match sendTimes NUM_DISCONNECT_PACKETS_TO_SEND s.sender
        pts.address pts.packet with
      | Except.ok s1 => discLoop o [] _
      | Except.error e => Except.error e) = _
    rw [hsend]
    rfl
  simp only [RenetServer.update, hrecv, hclient, hdisc]
  exact ⟨_, rfl, rfl, rfl⟩

/-- C2 witness: a `DisconnectedByServer` report for client 3 on a
healthy server yields the event plus exactly five copies of the
encrypted disconnect packet. -/
theorem c2_fatal_disconnect_five_packets_witness :
    ∃ s', RenetServer.update exOracle byServerServer = .ok s' ∧
      s'.events = [] ++ [ServerEvent.clientDisconnected 3] ∧
      s'.sender.sentLog = [] ++
        List.replicate NUM_DISCONNECT_PACKETS_TO_SEND ((3 : ℕ), [1]) :=
  c2_fatal_disconnect_five_packets exOracle byServerServer 3
    DisconnectionReason.DisconnectedByServer [1] ⟨[1], 3⟩
    rfl rfl rfl rfl (by decide) rfl rfl rfl

/-- Looking up `c` after the per-key update map of `process_packet_from`
is the original lookup with the update applied. -/
theorem lookup_map_upd (c : ℕ) (f : RechannelConn → RechannelConn) :
    ∀ l : List (ℕ × RechannelConn),
    (l.map (fun p => if p.1 = c then (p.1, f p.2) else p)).lookup c =
      (l.lookup c).map f := by
  intro l
  induction l with
  | nil => rfl
  | cons p l ih =>
    obtain ⟨k, v⟩ := p
    by_cases hk : k = c
    · subst hk
      simp only [List.map_cons, if_pos rfl]
      simp [List.lookup, ih]
    · simp only [List.map_cons, if_neg (by simpa using hk)]
      have hbeq : (c == k) = false := by
        simpa using Ne.symm hk
      simp [List.lookup, hbeq, ih]

/-- Lookup skips a block with no matching key. -/
theorem lookup_append_none (c : ℕ) :
    ∀ (l l2 : List (ℕ × RechannelConn)), l.lookup c = none →
    (l ++ l2).lookup c = l2.lookup c := by
  intro l
  induction l with
  | nil => intro l2 _; rfl
  | cons p l ih =>
    intro l2 h
    obtain ⟨k, v⟩ := p
    cases hbeq : (c == k) with
    | true =>
      rw [List.lookup] at h
      rw [hbeq] at h
      cases h
    | false =>
      rw [List.lookup] at h
      rw [hbeq] at h
      rw [List.cons_append, List.lookup, hbeq]
      exact ih l2 h

/-- C10: a `Payload` for a client without a channel-layer connection
record first creates the record and then hands the payload to it, for
every processing outcome; the handler succeeds (the processing error is
logged and swallowed), so the payload is never dropped and no error is
returned. -/
theorem c10_payload_never_dropped (o : NetcodeOracle) (core : ServerCore)
    (c : ℕ) (payload : List ℕ)
    (h : core.reliable.connections.lookup c = none) :
    ∃ core', handleServerResult o (ServerResult.payload c payload) core = .ok core' ∧
      ∃ conn, core'.reliable.connections.lookup c = some conn ∧
        payload ∈ conn.processed := by
  have hic : core.reliable.is_connected c = false := by
    simp [RechannelServer.is_connected, h]
  have hlook : ∀ ok : Bool,
      ((core.reliable.add_connection c).process_packet_from payload c
        ok).2.connections.lookup c = some ⟨[payload], ⟨0, 0, 0, 0⟩, []⟩ := by
    intro ok
    simp only [RechannelServer.add_connection, RechannelServer.process_packet_from]
    rw [lookup_map_upd c (fun v => { v with processed := v.processed ++ [payload] })]
    rw [lookup_append_none c _ _ h]
    simp [List.lookup, RechannelConn.init]
  simp only [handleServerResult, hic, Bool.false_eq_true, if_false]
  cases hok : o.processOk c payload with
  | false =>
    simp only [RechannelServer.process_packet_from, Bool.false_eq_true, if_false]
    refine ⟨_, rfl, ⟨⟨[payload], ⟨0, 0, 0, 0⟩, []⟩, ?_, List.mem_singleton_self payload⟩⟩
    have := hlook false
    simpa [RechannelServer.process_packet_from] using this
  | true =>
    simp only [RechannelServer.process_packet_from, if_pos rfl]
    refine ⟨_, rfl, ⟨⟨[payload], ⟨0, 0, 0, 0⟩, []⟩, ?_, List.mem_singleton_self payload⟩⟩
    have := hlook true
    simpa [RechannelServer.process_packet_from] using this

/-- C10 witness: on an empty core, a payload for unknown client 5 is
accepted, a connection record for 5 is created and the payload is
processed. -/
theorem c10_payload_never_dropped_witness :
    emptyCore.reliable.connections.lookup 5 = none ∧
    ∃ core', handleServerResult exOracle (ServerResult.payload 5 [7]) emptyCore =
      .ok core' ∧
      ∃ conn, core'.reliable.connections.lookup 5 = some conn ∧
        [7] ∈ conn.processed :=
  ⟨rfl, c10_payload_never_dropped exOracle emptyCore 5 [7] rfl⟩

/-- The per-client slice of the event history after one step: the queue
is a FIFO suffix of the pushed history, and each client's events match
its session state (`pending`: none; `connected`: one `ClientConnected`;
`disconnected`: `ClientConnected` then `ClientDisconnected`). -/
theorem stepEventSys_inv (s : EventSys) (st : SessionStep)
    (h1 : s.drained ++ s.queue = s.pushed)
    (h2 : ∀ c, (s.sessions c = SessionState.pending →
        eventsFor c s.pushed = []) ∧
      (s.sessions c = SessionState.connected →
        ∃ u, eventsFor c s.pushed = [ServerEvent.clientConnected c u]) ∧
      (s.sessions c = SessionState.disconnected →
        ∃ u, eventsFor c s.pushed =
          [ServerEvent.clientConnected c u, ServerEvent.clientDisconnected c])) :
    ((stepEventSys s st).drained ++ (stepEventSys s st).queue =
      (stepEventSys s st).pushed) ∧
    ∀ c, ((stepEventSys s st).sessions c = SessionState.pending →
        eventsFor c (stepEventSys s st).pushed = []) ∧
      ((stepEventSys s st).sessions c = SessionState.connected →
        ∃ u, eventsFor c (stepEventSys s st).pushed =
          [ServerEvent.clientConnected c u]) ∧
      ((stepEventSys s st).sessions c = SessionState.disconnected →
        ∃ u, eventsFor c (stepEventSys s st).pushed =
          [ServerEvent.clientConnected c u, ServerEvent.clientDisconnected c]) := by
  cases st with
  | connect c u =>
    by_cases hcond : s.sessions c = SessionState.pending
    · simp only [stepEventSys, if_pos hcond]
      constructor
      · rw [← List.append_assoc, h1]
      · intro d
        by_cases hd : d = c
        · subst hd
          have hnil : eventsFor d s.pushed = [] := (h2 d).1 hcond
          have hev : eventsFor d (s.pushed ++ [ServerEvent.clientConnected d u]) =
              [ServerEvent.clientConnected d u] := by
            rw [eventsFor, List.filter_append]
            rw [eventsFor] at hnil
            rw [hnil]
            simp
          simp only [if_pos rfl, hev]
          exact ⟨fun h => by simp at h, fun _ => ⟨u, rfl⟩, fun h => by simp at h⟩
        · have hsd : (if d = c then SessionState.connected else s.sessions d) =
              s.sessions d := if_neg hd
          have hev : eventsFor d (s.pushed ++ [ServerEvent.clientConnected c u]) =
              eventsFor d s.pushed := by
            simp [eventsFor, List.filter_append, Ne.symm hd]
          simp only [hsd, hev]
          exact h2 d
    · simp only [stepEventSys, if_neg hcond]
      exact ⟨h1, h2⟩
  | disconnect c =>
    by_cases hcond : s.sessions c = SessionState.connected
    · simp only [stepEventSys, if_pos hcond]
      constructor
      · rw [← List.append_assoc, h1]
      · intro d
        by_cases hd : d = c
        · subst hd
          obtain ⟨u, hone⟩ := (h2 d).2.1 hcond
          have hev : eventsFor d (s.pushed ++ [ServerEvent.clientDisconnected d]) =
              [ServerEvent.clientConnected d u, ServerEvent.clientDisconnected d] := by
            rw [eventsFor, List.filter_append]
            rw [eventsFor] at hone
            rw [hone]
            simp
          simp only [if_pos rfl, hev]
          exact ⟨fun h => by simp at h, fun h => by simp at h, fun _ => ⟨u, rfl⟩⟩
        · have hsd : (if d = c then SessionState.disconnected else s.sessions d) =
              s.sessions d := if_neg hd
          have hev : eventsFor d (s.pushed ++ [ServerEvent.clientDisconnected c]) =
              eventsFor d s.pushed := by
            simp [eventsFor, List.filter_append, Ne.symm hd]
          simp only [hsd, hev]
          exact h2 d
    · simp only [stepEventSys, if_neg hcond]
      exact ⟨h1, h2⟩
  | getEvent =>
    cases hq : s.queue with
    | nil =>
      simp only [stepEventSys, hq]
      rw [hq] at h1
      exact ⟨h1, h2⟩
    | cons e rest =>
      simp only [stepEventSys, hq]
      refine ⟨?_, h2⟩
      rw [hq] at h1
      rw [List.append_assoc, List.singleton_append]
      exact h1

/-- The event-system invariant holds along every run from a state that
satisfies it. -/
theorem runEventSys_inv (steps : List SessionStep) : ∀ s : EventSys,
    (s.drained ++ s.queue = s.pushed) →
    (∀ c, (s.sessions c = SessionState.pending →
        eventsFor c s.pushed = []) ∧
      (s.sessions c = SessionState.connected →
        ∃ u, eventsFor c s.pushed = [ServerEvent.clientConnected c u]) ∧
      (s.sessions c = SessionState.disconnected →
        ∃ u, eventsFor c s.pushed =
          [ServerEvent.clientConnected c u, ServerEvent.clientDisconnected c])) →
    ((steps.foldl stepEventSys s).drained ++ (steps.foldl stepEventSys s).queue =
      (steps.foldl stepEventSys s).pushed) ∧
    ∀ c, ((steps.foldl stepEventSys s).sessions c = SessionState.pending →
        eventsFor c (steps.foldl stepEventSys s).pushed = []) ∧
      ((steps.foldl stepEventSys s).sessions c = SessionState.connected →
        ∃ u, eventsFor c (steps.foldl stepEventSys s).pushed =
          [ServerEvent.clientConnected c u]) ∧
      ((steps.foldl stepEventSys s).sessions c = SessionState.disconnected →
        ∃ u, eventsFor c (steps.foldl stepEventSys s).pushed =
          [ServerEvent.clientConnected c u, ServerEvent.clientDisconnected c]) := by
  induction steps with
  | nil => intro s h1 h2; exact ⟨h1, h2⟩
  | cons st rest ih =>
    intro s h1 h2
    obtain ⟨h1', h2'⟩ := stepEventSys_inv s st h1 h2
    exact ih (stepEventSys s st) h1' h2'

/-- C3: server events drain in FIFO order (the drained prefix plus the
remaining queue is exactly the pushed history, in order), and for every
client a `ClientDisconnected` event is preceded by the matching
`ClientConnected` event: the client's event subsequence is exactly
`[ClientConnected, ClientDisconnected]`. -/
theorem c3_event_fifo_and_order (steps : List SessionStep) :
    ((runEventSys steps).drained ++ (runEventSys steps).queue =
      (runEventSys steps).pushed) ∧
    ∀ c, ServerEvent.clientDisconnected c ∈ (runEventSys steps).pushed →
      ∃ u, eventsFor c (runEventSys steps).pushed =
        [ServerEvent.clientConnected c u, ServerEvent.clientDisconnected c] := by
  simp only [runEventSys]
  obtain ⟨h1, h2⟩ := runEventSys_inv steps EventSys.init rfl
    (fun c => ⟨fun _ => rfl, fun h => by simp [EventSys.init] at h,
      fun h => by simp [EventSys.init] at h⟩)
  refine ⟨h1, ?_⟩
  intro c hd
  have hmem : ServerEvent.clientDisconnected c ∈
      eventsFor c (List.foldl stepEventSys EventSys.init steps).pushed := by
    simp only [eventsFor]
    exact List.mem_filter.mpr ⟨hd, by simp⟩
  rcases h2 c with ⟨hp, hc, hdisc⟩
  cases hstate : (List.foldl stepEventSys EventSys.init steps).sessions c with
  | pending =>
    rw [hp hstate] at hmem
    cases hmem
  | connected =>
    obtain ⟨u, he⟩ := hc hstate
    rw [he] at hmem
    have hx := List.mem_singleton.mp hmem
    simp at hx
  | disconnected => exact hdisc hstate

/-- C3 witness: the run connect-disconnect-drain for client 0 yields
the FIFO equation and the ordered event pair for client 0. -/
theorem c3_event_fifo_and_order_witness :
    ((runEventSys [SessionStep.connect 0 5, SessionStep.disconnect 0,
        SessionStep.getEvent]).drained ++
      (runEventSys [SessionStep.connect 0 5, SessionStep.disconnect 0,
        SessionStep.getEvent]).queue =
      (runEventSys [SessionStep.connect 0 5, SessionStep.disconnect 0,
        SessionStep.getEvent]).pushed) ∧
    ∃ u, eventsFor 0 (runEventSys [SessionStep.connect 0 5,
        SessionStep.disconnect 0, SessionStep.getEvent]).pushed =
      [ServerEvent.clientConnected 0 u, ServerEvent.clientDisconnected 0] :=
  ⟨(c3_event_fifo_and_order [SessionStep.connect 0 5, SessionStep.disconnect 0,
      SessionStep.getEvent]).1,
    (c3_event_fifo_and_order [SessionStep.connect 0 5, SessionStep.disconnect 0,
      SessionStep.getEvent]).2 0 (by decide)⟩

/-- `processMessage` never moves the delivery cursor. -/
theorem processMessage_next {Msg : Type} (r : ReliableReceiver Msg)
    (id : ℕ) (m : Msg) :
    (r.processMessage id m).nextExpectedId = r.nextExpectedId := by
  unfold ReliableReceiver.processMessage
  split <;> rfl

/-- The reliable-receiver run invariant: when the output so far is the
`nextExpectedId`-prefix of `sent` and every buffered message is the
genuine sent message of a not-yet-delivered id, the final output is the
final cursor's prefix of `sent`. -/
theorem runReliable_inv {Msg : Type} [Inhabited Msg] (sent : List Msg) :
    ∀ (events : List NetEvent) (r : ReliableReceiver Msg) (out : List Msg),
    events.all (validEvent sent.length) = true →
    out = sent.take r.nextExpectedId →
    (∀ j m, r.pending j = some m →
      r.nextExpectedId ≤ j ∧ j < sent.length ∧ m = sent.getD j default) →
    (runReliable sent events r out).2 =
      sent.take (runReliable sent events r out).1.nextExpectedId := by
  intro events
  induction events with
  | nil =>
    intro r out _ hout _
    exact hout
  | cons e rest ih =>
    intro r out hall hout hpend
    have hall' : rest.all (validEvent sent.length) = true := by
      rw [List.all_cons, Bool.and_eq_true] at hall
      exact hall.2
    cases e with
    | deliver id =>
      have hid : id < sent.length := by
        rw [List.all_cons, Bool.and_eq_true] at hall
        simpa [validEvent] using hall.1
      simp only [runReliable]
      apply ih _ _ hall'
      · rw [processMessage_next]
        exact hout
      · intro j m hj
        rw [processMessage_next]
        unfold ReliableReceiver.processMessage at hj
        split at hj
        · exact hpend j m hj
        · rename_i hge
          simp only at hj
          by_cases hji : j = id
          · subst hji
            rw [if_pos rfl] at hj
            cases hj
            exact ⟨Nat.le_of_not_lt hge, hid, rfl⟩
          · rw [if_neg hji] at hj
            exact hpend j m hj
    | receive =>
      cases hrm : r.pending r.nextExpectedId with
      | none =>
        simp only [runReliable, ReliableReceiver.receiveMessage, hrm]
        exact ih r out hall' hout hpend
      | some m =>
        obtain ⟨hle, hlt, hm⟩ := hpend _ _ hrm
        simp only [runReliable, ReliableReceiver.receiveMessage, hrm]
        apply ih _ _ hall'
        · show out ++ [m] = sent.take (r.nextExpectedId + 1)
          have hget : sent.getD r.nextExpectedId default = sent[r.nextExpectedId] := by
            rw [List.getD_eq_getElem?_getD, List.getElem?_eq_getElem hlt]
            rfl
          rw [hout, hm, hget, List.take_succ, List.getElem?_eq_getElem hlt]
          rfl
        · intro j m' hj
          simp only at hj
          by_cases hji : j = r.nextExpectedId
          · subst hji
            rw [if_pos rfl] at hj
            cases hj
          · rw [if_neg hji] at hj
            obtain ⟨hle', hlt', hm'⟩ := hpend j m' hj
            exact ⟨Nat.succ_le_of_lt (Nat.lt_of_le_of_ne hle' (Ne.symm hji)),
              hlt', hm'⟩

/-- C1: for every sent sequence on a reliable channel and every finite
pattern of loss, duplication and reordering of its packets interleaved
with `receive_message` calls, the sequence of received messages is a
prefix of the sent sequence (hence no duplicate and no out-of-order
delivery). -/
theorem c1_reliable_prefix_delivery {Msg : Type} [Inhabited Msg]
    (sent : List Msg) (events : List NetEvent)
    (h : events.all (validEvent sent.length) = true) :
    ∃ n, (runReliable sent events ReliableReceiver.init []).2 = sent.take n := by
  refine ⟨(runReliable sent events ReliableReceiver.init []).1.nextExpectedId, ?_⟩
  apply runReliable_inv sent events ReliableReceiver.init [] h rfl
  intro j m hj
  cases hj

/-- C1 witness: sent `[10, 20, 30]`, with message 2 lost, message 1
delivered out of order and twice; the receiver outputs `[10, 20]`, a
prefix of the sent sequence. -/
theorem c1_reliable_prefix_delivery_witness :
    ([NetEvent.deliver 1, NetEvent.receive, NetEvent.deliver 0, NetEvent.receive,
      NetEvent.receive, NetEvent.deliver 1, NetEvent.receive].all
      (validEvent ([10, 20, 30] : List ℕ).length) = true) ∧
    (runReliable ([10, 20, 30] : List ℕ)
      [NetEvent.deliver 1, NetEvent.receive, NetEvent.deliver 0, NetEvent.receive,
        NetEvent.receive, NetEvent.deliver 1, NetEvent.receive]
      ReliableReceiver.init []).2 = [10, 20] ∧
    ∃ n, (runReliable ([10, 20, 30] : List ℕ)
      [NetEvent.deliver 1, NetEvent.receive, NetEvent.deliver 0, NetEvent.receive,
        NetEvent.receive, NetEvent.deliver 1, NetEvent.receive]
      ReliableReceiver.init []).2 = ([10, 20, 30] : List ℕ).take n :=
  ⟨by decide, by decide,
    c1_reliable_prefix_delivery [10, 20, 30]
      [NetEvent.deliver 1, NetEvent.receive, NetEvent.deliver 0, NetEvent.receive,
        NetEvent.receive, NetEvent.deliver 1, NetEvent.receive] (by decide)⟩

end Renet
